import Mathlib

/-!
Verification development for `src/calculater.py`.

The file embeds the arithmetic core of the calculator: the `_SafeEval`
AST visitor (class `_SafeEval`, lines 6-50), the `safe_eval` entry point
(lines 53-60), the result normalization performed by the caller
`CalculatorApp.calculate` (lines 150-152), and a model of `ast.parse`
in `eval` mode restricted to the expression subset relevant to this
program: decimal integer and float literals, string literals, the
names `True`/`False`/`None`, identifiers, calls, tuples, attribute
access, the binary operators `+ - * / // % **`, the unary operators
`+ - ~`, parentheses and commas.

Modelling conventions:
* Python floats are idealized as exact fractions (`Flt`, an unnormalized
  pair of integers with positive denominator for every value actually
  produced).  Every numeric literal and arithmetic step appearing in the
  claims is exactly representable, so no rounding questions arise.
* A power with fractional exponent generally has an irrational value; the
  model keeps only its observable classification: `PyVal.vfloatPow` is
  the float produced by `b ** e` with `b > 0` and `e` non-integral, and
  `PyVal.vcomplexPow` is the complex number produced when `b < 0`
  (CPython returns a `complex` there rather than raising).  These
  abstract values are treated as nonzero, positive and non-integral in
  subsequent arithmetic; no claim depends on their exact magnitude.
* Python exceptions become error values of type `PyExc`.  `bool` is a
  subclass of `int` in Python, so the `isinstance(value, (int, float))`
  check of `visit_Constant` accepts booleans; the model mirrors that.
-/

namespace Calculater

/-- Exact fraction standing for an idealized Python float.  Kept
unnormalized (no gcd reduction) so that all operations reduce inside the
kernel; the denominator is positive for every value the lexer or the
evaluator constructs. -/
structure Flt where
  num : Int
  den : Int
  deriving DecidableEq, Repr

/-- Rational value denoted by a fraction. -/
def Flt.toRat (f : Flt) : ℚ := (f.num : ℚ) / (f.den : ℚ)

/-- Fraction with integer value `n`. -/
def Flt.ofInt (n : Int) : Flt := ⟨n, 1⟩

/-- Zero test (exact, valid for positive denominators). -/
def Flt.isZero (f : Flt) : Bool := f.num == 0

/-- Negativity test (valid for positive denominators). -/
def Flt.isNeg (f : Flt) : Bool := f.num < 0

/-- Integrality test, the model of `float.is_integer`. -/
def Flt.isIntegral (f : Flt) : Bool := f.num % f.den == 0

/-- Integer value of an integral fraction (exact division). -/
def Flt.intOf (f : Flt) : Int := f.num / f.den

def addF (x y : Flt) : Flt := ⟨x.num * y.den + y.num * x.den, x.den * y.den⟩

def subF (x y : Flt) : Flt := ⟨x.num * y.den - y.num * x.den, x.den * y.den⟩

def mulF (x y : Flt) : Flt := ⟨x.num * y.num, x.den * y.den⟩

def negF (f : Flt) : Flt := ⟨-f.num, f.den⟩

/-- Division, adjusting signs so the denominator stays positive. -/
def divF (x y : Flt) : Flt :=
  if y.num < 0 then ⟨-(x.num * y.den), x.den * (-y.num)⟩
  else ⟨x.num * y.den, x.den * y.num⟩

def powNatF (f : Flt) : Nat → Flt
  | 0 => ⟨1, 1⟩
  | k + 1 => mulF f (powNatF f k)

def invF (f : Flt) : Flt :=
  if f.num < 0 then ⟨-f.den, -f.num⟩ else ⟨f.den, f.num⟩

/-- Integer power of a fraction (Python float `**` with integral exponent). -/
def zpowF (f : Flt) (e : Int) : Flt :=
  if 0 ≤ e then powNatF f e.toNat else invF (powNatF f e.natAbs)

/-- Floor of the exact quotient `x / y`, using that `Int` division `/` is
Euclidean division, which agrees with the floor for positive divisors. -/
def floorDivF (x y : Flt) : Int :=
  if x.den * y.num < 0 then (-(x.num * y.den)) / (-(x.den * y.num))
  else (x.num * y.den) / (x.den * y.num)

/-- Python float `%`: `x - y * floor(x / y)`, the sign following the
divisor, exactly the convention of CPython's float modulo (idealized to
exact arithmetic). -/
def fmodF (x y : Flt) : Flt := subF x (mulF y (Flt.ofInt (floorDivF x y)))

/-- Constant payload of an `ast.Constant` node. -/
inductive Lit where
  | lint (n : Int)
  | lfloat (f : Flt)
  | lbool (b : Bool)
  | lstr (s : String)
  | lnone
  deriving DecidableEq, Repr

/-- Runtime values the evaluator can produce.  `vnone` is Python's `None`
(the result of `generic_visit`); `vfloatPow` and `vcomplexPow` are the
abstract float/complex results of fractional powers described in the
header. -/
inductive PyVal where
  | vint (n : Int)
  | vbool (b : Bool)
  | vfloat (f : Flt)
  | vfloatPow
  | vcomplexPow
  | vnone
  deriving DecidableEq, Repr

/-- Python exceptions reachable from `safe_eval`, as error values.
`parseFail` stands for the `SyntaxError` raised by `ast.parse`;
`valueError` carries the message built in `_SafeEval`;
`typeError` and `zeroDivisionError` come from the arithmetic itself. -/
inductive PyExc where
  | valueError (msg : String)
  | typeError
  | zeroDivisionError
  | parseFail (msg : String)
  deriving DecidableEq, Repr

/-- Binary operator nodes (`ast.Add` … `ast.Pow`; `floorDiv` is
`ast.FloorDiv`, which parses but is rejected by `visit_BinOp`). -/
inductive BOp where
  | add
  | sub
  | mult
  | div
  | mod
  | pow
  | floorDiv
  deriving DecidableEq, Repr

/-- Unary operator nodes (`ast.UAdd`, `ast.USub`; `invert` is
`ast.Invert`, which parses but is rejected by `visit_UnaryOp`). -/
inductive UOp where
  | uadd
  | usub
  | invert
  deriving DecidableEq, Repr

/-- Expression AST, the subset of `ast` node kinds this program can
receive.  `attrAccess` models `ast.Attribute`, the representative node
kind outside `_SafeEval.ALLOWED_NODES`; every other constructor is in
the allow-list (note that `Call`, `Name` and `Tuple` are in
`ALLOWED_NODES`, lines 7-11 of the source). -/
inductive Ast where
  | expression (body : Ast)
  | constant (v : Lit)
  | binOp (op : BOp) (l r : Ast)
  | unaryOp (op : UOp) (x : Ast)
  | name (id : String)
  | call (f : Ast) (args : List Ast)
  | tuple (elts : List Ast)
  | attrAccess (obj : Ast) (field : String)

/-- Membership in `_SafeEval.ALLOWED_NODES` for the modelled node kinds. -/
def allowedNode : Ast → Bool
  | .attrAccess _ _ => false
  | _ => true

def isIntLike : PyVal → Bool
  | .vint _ => true
  | .vbool _ => true
  | _ => false

/-- Integer denotation of an int-like value (Python's `bool` coerces). -/
def toIntVal : PyVal → Int
  | .vint n => n
  | .vbool true => 1
  | _ => 0

def isNumericVal : PyVal → Bool
  | .vint _ => true
  | .vbool _ => true
  | .vfloat _ => true
  | _ => false

/-- Fraction denotation of an exactly modelled numeric value. -/
def toFltVal : PyVal → Flt
  | .vint n => Flt.ofInt n
  | .vbool true => ⟨1, 1⟩
  | .vbool false => ⟨0, 1⟩
  | .vfloat f => f
  | _ => ⟨0, 1⟩

/-- Python `== 0` on the exactly modelled numeric values. -/
def isZeroVal : PyVal → Bool
  | .vint n => n == 0
  | .vbool b => !b
  | .vfloat f => f.isZero
  | _ => false

/-- Python binary `+` restricted to the values this evaluator can
produce: int-like operands give an int, a float operand promotes to a
float, abstract floats and complexes absorb, `None` raises `TypeError`. -/
def addVal : PyVal → PyVal → Except PyExc PyVal
  | .vnone, _ => .error .typeError
  | _, .vnone => .error .typeError
  | .vcomplexPow, _ => .ok .vcomplexPow
  | _, .vcomplexPow => .ok .vcomplexPow
  | .vfloatPow, _ => .ok .vfloatPow
  | _, .vfloatPow => .ok .vfloatPow
  | .vfloat a, r => .ok (.vfloat (addF a (toFltVal r)))
  | l, .vfloat b => .ok (.vfloat (addF (toFltVal l) b))
  | l, r => .ok (.vint (toIntVal l + toIntVal r))

/-- Python binary `-`, same conventions as `addVal`. -/
def subVal : PyVal → PyVal → Except PyExc PyVal
  | .vnone, _ => .error .typeError
  | _, .vnone => .error .typeError
  | .vcomplexPow, _ => .ok .vcomplexPow
  | _, .vcomplexPow => .ok .vcomplexPow
  | .vfloatPow, _ => .ok .vfloatPow
  | _, .vfloatPow => .ok .vfloatPow
  | .vfloat a, r => .ok (.vfloat (subF a (toFltVal r)))
  | l, .vfloat b => .ok (.vfloat (subF (toFltVal l) b))
  | l, r => .ok (.vint (toIntVal l - toIntVal r))

/-- Python binary `*`, same conventions as `addVal`. -/
def mulVal : PyVal → PyVal → Except PyExc PyVal
  | .vnone, _ => .error .typeError
  | _, .vnone => .error .typeError
  | .vcomplexPow, _ => .ok .vcomplexPow
  | _, .vcomplexPow => .ok .vcomplexPow
  | .vfloatPow, _ => .ok .vfloatPow
  | _, .vfloatPow => .ok .vfloatPow
  | .vfloat a, r => .ok (.vfloat (mulF a (toFltVal r)))
  | l, .vfloat b => .ok (.vfloat (mulF (toFltVal l) b))
  | l, r => .ok (.vint (toIntVal l * toIntVal r))

/-- Python true division `/`: always float-valued on real operands,
`ZeroDivisionError` when the divisor equals zero (abstract fractional
powers are nonzero by construction). -/
def divVal : PyVal → PyVal → Except PyExc PyVal
  | .vnone, _ => .error .typeError
  | _, .vnone => .error .typeError
  | _, .vcomplexPow => .ok .vcomplexPow
  | .vcomplexPow, .vfloatPow => .ok .vcomplexPow
  | _, .vfloatPow => .ok .vfloatPow
  | .vcomplexPow, r =>
    if isZeroVal r then .error .zeroDivisionError else .ok .vcomplexPow
  | .vfloatPow, r =>
    if isZeroVal r then .error .zeroDivisionError else .ok .vfloatPow
  | l, r =>
    if isZeroVal r then .error .zeroDivisionError
    else .ok (.vfloat (divF (toFltVal l) (toFltVal r)))

/-- Python `%`: `TypeError` on complex (CPython removed complex modulo),
`ZeroDivisionError` on a zero divisor, floor-signed `Int.fmod` on
int-like operands, float modulo otherwise. -/
def modVal : PyVal → PyVal → Except PyExc PyVal
  | .vnone, _ => .error .typeError
  | _, .vnone => .error .typeError
  | .vcomplexPow, _ => .error .typeError
  | _, .vcomplexPow => .error .typeError
  | _, .vfloatPow => .ok .vfloatPow
  | .vfloatPow, r =>
    if isZeroVal r then .error .zeroDivisionError else .ok .vfloatPow
  | l, r =>
    if isZeroVal r then .error .zeroDivisionError
    else if isIntLike l && isIntLike r then
      .ok (.vint (Int.fmod (toIntVal l) (toIntVal r)))
    else .ok (.vfloat (fmodF (toFltVal l) (toFltVal r)))

/-- Python `**`.  Int-like base and exponent give an int for nonnegative
exponents and a float otherwise; a fractional exponent over a negative
base yields a complex value (CPython returns `complex` instead of
raising); `0 ** e` with `e < 0` raises `ZeroDivisionError`. -/
def powVal : PyVal → PyVal → Except PyExc PyVal
  | .vnone, _ => .error .typeError
  | _, .vnone => .error .typeError
  | .vcomplexPow, _ => .ok .vcomplexPow
  | _, .vcomplexPow => .ok .vcomplexPow
  | .vfloatPow, _ => .ok .vfloatPow
  | l, .vfloatPow =>
    if (toFltVal l).isNeg then .ok .vcomplexPow else .ok .vfloatPow
  | l, r =>
    if isIntLike l && isIntLike r then
      let a := toIntVal l
      let e := toIntVal r
      if 0 ≤ e then .ok (.vint (a ^ e.toNat))
      else if a = 0 then .error .zeroDivisionError
      else .ok (.vfloat (zpowF (Flt.ofInt a) e))
    else
      let b := toFltVal l
      let e := toFltVal r
      if e.isIntegral then
        if b.isZero && e.isNeg then .error .zeroDivisionError
        else .ok (.vfloat (zpowF b e.intOf))
      else
        if b.isNeg then .ok .vcomplexPow
        else if b.isZero then
          if e.isNeg then .error .zeroDivisionError
          else .ok (.vfloat ⟨0, 1⟩)
        else .ok .vfloatPow

/-- Operator dispatch of `visit_BinOp` (lines 21-37): the six supported
operators apply Python's arithmetic; any other operator node (for
example `ast.FloorDiv`) reaches the final
`raise ValueError("Unsupported operator")`. -/
def applyBin : BOp → PyVal → PyVal → Except PyExc PyVal
  | .add, l, r => addVal l r
  | .sub, l, r => subVal l r
  | .mult, l, r => mulVal l r
  | .div, l, r => divVal l r
  | .mod, l, r => modVal l r
  | .pow, l, r => powVal l r
  | .floorDiv, _, _ => .error (.valueError "Unsupported operator")

/-- Operator dispatch of `visit_UnaryOp` (lines 39-45): Python unary `+`
and `-` (booleans coerce to int); any other operator node reaches
`raise ValueError("Unsupported unary operator")`. -/
def applyUnary : UOp → PyVal → Except PyExc PyVal
  | .uadd, .vint n => .ok (.vint n)
  | .uadd, .vbool b => .ok (.vint (if b then 1 else 0))
  | .uadd, .vfloat f => .ok (.vfloat f)
  | .uadd, .vfloatPow => .ok .vfloatPow
  | .uadd, .vcomplexPow => .ok .vcomplexPow
  | .uadd, .vnone => .error .typeError
  | .usub, .vint n => .ok (.vint (-n))
  | .usub, .vbool b => .ok (.vint (if b then -1 else 0))
  | .usub, .vfloat f => .ok (.vfloat (negF f))
  | .usub, .vfloatPow => .ok .vfloatPow
  | .usub, .vcomplexPow => .ok .vcomplexPow
  | .usub, .vnone => .error .typeError
  | .invert, _ => .error (.valueError "Unsupported unary operator")

/-- Body of `visit_Constant` (lines 47-50): the value passes through
exactly when `isinstance(value, (int, float))` holds — which is true for
booleans, since `bool` is a subclass of `int` in Python — and every
other constant raises
`ValueError("Only numeric constants are allowed")`. -/
def visitConstant : Lit → Except PyExc PyVal
  | .lint n => .ok (.vint n)
  | .lfloat f => .ok (.vfloat f)
  | .lbool b => .ok (.vbool b)
  | .lstr _ => .error (.valueError "Only numeric constants are allowed")
  | .lnone => .error (.valueError "Only numeric constants are allowed")

mutual
/-- The overridden `visit` of `_SafeEval` (lines 13-16) combined with the
`ast.NodeVisitor` dispatch it delegates to: a node kind outside
`ALLOWED_NODES` raises `ValueError(f"Disallowed expression: {kind}")`
before any recursion; allowed kinds go to their `visit_*` method when one
exists; `Call`, `Name` and `Tuple` have none, so they fall through to
`generic_visit`, which visits every child field (propagating child
errors) and returns `None`.  The `Load` context child of `Name` and
`Tuple` is allow-listed and childless, so visiting it always succeeds. -/
def visit : Ast → Except PyExc PyVal
  | .expression b => visit b
  | .constant v => visitConstant v
  | .binOp op l r => do
    let lv ← visit l
    let rv ← visit r
    applyBin op lv rv
  | .unaryOp op x => do
    let xv ← visit x
    applyUnary op xv
  | .name _ => .ok .vnone
  | .call f args => do
    let _ ← visit f
    let _ ← visitList args
    .ok .vnone
  | .tuple elts => do
    let _ ← visitList elts
    .ok .vnone
  | .attrAccess _ _ => .error (.valueError "Disallowed expression: Attribute")

/-- Child traversal performed by `generic_visit` over a node-list field:
each child is visited in order, errors propagate, results are discarded. -/
def visitList : List Ast → Except PyExc Unit
  | [] => .ok ()
  | a :: rest => do
    let _ ← visit a
    visitList rest
end

/-- Characters treated as whitespace by Python's `str.strip` (ASCII
subset; the inputs in scope contain no other whitespace). -/
def isPySpace (c : Char) : Bool :=
  c = ' ' ∨ c = '\t' ∨ c = '\n' ∨ c = '\r' ∨ c = '\x0b' ∨ c = '\x0c'

/-- Model of `expr.strip()` on the character list of the input. -/
def stripChars (cs : List Char) : List Char :=
  ((cs.dropWhile isPySpace).reverse.dropWhile isPySpace).reverse

/-- Tokens of the modelled expression subset.  `dstar` is `**`, `dslash`
is `//`; `litstr` is a quoted string literal. -/
inductive Tok where
  | num (l : Lit)
  | litstr (s : String)
  | ident (s : String)
  | plus
  | minus
  | star
  | slash
  | dslash
  | percent
  | dstar
  | lparen
  | rparen
  | comma
  | tilde
  | dot
  deriving DecidableEq, Repr

def takeDigits : List Char → List Char × List Char
  | [] => ([], [])
  | c :: rest =>
    if c.isDigit then
      let (d, r) := takeDigits rest
      (c :: d, r)
    else ([], c :: rest)

def digitsToNat (acc : Nat) : List Char → Nat
  | [] => acc
  | c :: rest => digitsToNat (acc * 10 + (c.toNat - 48)) rest

/-- Scale a fraction by a decimal exponent (`e` suffix of a float
literal). -/
def scalePow10 (f : Flt) (e : Int) : Flt :=
  if 0 ≤ e then ⟨f.num * (10 : Int) ^ e.toNat, f.den⟩
  else ⟨f.num, f.den * (10 : Int) ^ e.natAbs⟩

/-- Reads the optional exponent suffix of a numeric literal.  Returns
the exponent (when present) and the remaining characters. -/
def lexExponent : List Char → Except String (Option Int × List Char)
  | 'e' :: rest => lexExponentTail rest
  | 'E' :: rest => lexExponentTail rest
  | cs => .ok (none, cs)
where
  lexExponentTail : List Char → Except String (Option Int × List Char)
    | '+' :: rest => lexExponentDigits 1 rest
    | '-' :: rest => lexExponentDigits (-1) rest
    | rest => lexExponentDigits 1 rest
  lexExponentDigits (sign : Int) (cs : List Char) :
      Except String (Option Int × List Char) :=
    let (ds, r) := takeDigits cs
    if ds.isEmpty then .error "invalid decimal literal"
    else .ok (some (sign * (digitsToNat 0 ds : Int)), r)

/-- Reads one numeric literal starting at the current position (the
caller guarantees the first character is a digit, or a dot followed by a
digit).  Python syntax for decimal literals: an integer part, an
optional fraction introduced by `.`, an optional exponent; a plain
integer literal must not have a leading zero (`012` is a
`SyntaxError`). -/
def lexNumber (cs : List Char) : Except String (Tok × List Char) := do
  let (ip, r1) := takeDigits cs
  match r1 with
  | '.' :: r2 =>
    let (fp, r3) := takeDigits r2
    let (oe, r4) ← lexExponent r3
    .ok (mkFloatTok ip fp (oe.getD 0), r4)
  | _ =>
    let (oe, r4) ← lexExponent r1
    match oe with
    | some e => .ok (mkFloatTok ip [] e, r4)
    | none =>
      match ip with
      | '0' :: _ :: _ => .error "invalid decimal literal"
      | _ => .ok (.num (.lint (digitsToNat 0 ip : Int)), r4)
where
  mkFloatTok (ip fp : List Char) (e : Int) : Tok :=
    let mant : Flt :=
      ⟨(digitsToNat 0 ip : Int) * (10 : Int) ^ fp.length + (digitsToNat 0 fp : Int),
        (10 : Int) ^ fp.length⟩
    .num (.lfloat (scalePow10 mant e))

/-- Reads the body of a string literal up to the closing quote.  Escape
sequences are outside the modelled subset. -/
def takeStr (q : Char) : List Char → Except String (List Char × List Char)
  | [] => .error "unterminated string literal"
  | c :: rest =>
    if c = q then .ok ([], rest)
    else if c = '\\' then .error "string escapes not modelled"
    else do
      let (s, r) ← takeStr q rest
      .ok (c :: s, r)

def isIdentStart (c : Char) : Bool := c.isAlpha || c = '_'

def isIdentChar (c : Char) : Bool := c.isAlphanum || c = '_'

def takeIdent : List Char → List Char × List Char
  | [] => ([], [])
  | c :: rest =>
    if isIdentChar c then
      let (d, r) := takeIdent rest
      (c :: d, r)
    else ([], c :: rest)

/-- Python keywords that begin constructs outside the modelled expression
subset (boolean logic, comprehensions, lambdas, …).  The model reports
them as parse failures; CPython parses some of them into node kinds the
evaluator then rejects — either way `safe_eval` fails on such input. -/
def reservedWords : List String :=
  ["and", "or", "not", "if", "else", "elif", "lambda", "for", "while",
   "in", "is", "await", "yield", "def", "class", "return", "import",
   "from", "with", "as", "del", "pass", "assert", "raise", "try",
   "except", "finally", "global", "nonlocal", "break", "continue"]

/-- Tokenizer for the modelled subset, fuelled by the input length.  One
character of lookahead distinguishes `**` from `*`, `//` from `/`, and a
float starting with `.` from an attribute dot. -/
def lex : Nat → List Char → Except String (List Tok)
  | 0, _ => .error "lexer fuel exhausted"
  | _ + 1, [] => .ok []
  | fuel + 1, c :: cs =>
    if c = ' ' ∨ c = '\t' then lex fuel cs
    else if c.isDigit then do
      let (t, rest) ← lexNumber (c :: cs)
      let ts ← lex fuel rest
      .ok (t :: ts)
    else if c = '.' then
      match cs with
      | d :: _ =>
        if d.isDigit then do
          let (t, rest) ← lexNumber (c :: cs)
          let ts ← lex fuel rest
          .ok (t :: ts)
        else do
          let ts ← lex fuel cs
          .ok (.dot :: ts)
      | [] => .ok [.dot]
    else if c = '\'' ∨ c = '"' then do
      let (body, rest) ← takeStr c cs
      let ts ← lex fuel rest
      .ok (.litstr (String.mk body) :: ts)
    else if isIdentStart c then
      let (w, rest) := takeIdent (c :: cs)
      let s := String.mk w
      if reservedWords.contains s then .error "reserved keyword in expression"
      else do
        let ts ← lex fuel rest
        .ok (.ident s :: ts)
    else if c = '*' then
      match cs with
      | '*' :: rest => do
        let ts ← lex fuel rest
        .ok (.dstar :: ts)
      | _ => do
        let ts ← lex fuel cs
        .ok (.star :: ts)
    else if c = '/' then
      match cs with
      | '/' :: rest => do
        let ts ← lex fuel rest
        .ok (.dslash :: ts)
      | _ => do
        let ts ← lex fuel cs
        .ok (.slash :: ts)
    else if c = '+' then do
      let ts ← lex fuel cs
      .ok (.plus :: ts)
    else if c = '-' then do
      let ts ← lex fuel cs
      .ok (.minus :: ts)
    else if c = '%' then do
      let ts ← lex fuel cs
      .ok (.percent :: ts)
    else if c = '(' then do
      let ts ← lex fuel cs
      .ok (.lparen :: ts)
    else if c = ')' then do
      let ts ← lex fuel cs
      .ok (.rparen :: ts)
    else if c = ',' then do
      let ts ← lex fuel cs
      .ok (.comma :: ts)
    else if c = '~' then do
      let ts ← lex fuel cs
      .ok (.tilde :: ts)
    else .error "unexpected character"

/-- Tokens that can begin an expression, used to decide whether a comma
is followed by another element or is a trailing comma. -/
def startsExpr : Tok → Bool
  | .num _ => true
  | .litstr _ => true
  | .ident _ => true
  | .lparen => true
  | .plus => true
  | .minus => true
  | .tilde => true
  | _ => false

mutual
/-- Testlist (CPython `expression_list`): one arithmetic expression, or a
comma-separated sequence building an `ast.Tuple`.  This is the start
symbol of `ast.parse(_, mode="eval")` for the modelled subset, and also
what parentheses enclose. -/
def pTestlist : Nat → List Tok → Except String (Ast × List Tok)
  | 0, _ => .error "fuel exhausted"
  | fuel + 1, ts => do
    let (a, r) ← pArith fuel ts
    match r with
    | .comma :: r2 => do
      let (es, r3) ← pTestlistRest fuel r2
      .ok (.tuple (a :: es), r3)
    | _ => .ok (a, r)

/-- Elements after the first comma of a testlist (allowing a trailing
comma). -/
def pTestlistRest : Nat → List Tok → Except String (List Ast × List Tok)
  | 0, _ => .error "fuel exhausted"
  | fuel + 1, ts =>
    match ts with
    | t :: _ =>
      if startsExpr t then do
        let (a, r) ← pArith fuel ts
        match r with
        | .comma :: r2 => do
          let (es, r3) ← pTestlistRest fuel r2
          .ok (a :: es, r3)
        | _ => .ok ([a], r)
      else .ok ([], ts)
    | [] => .ok ([], [])

/-- Additive level: `term (('+' | '-') term)*`, left-associative. -/
def pArith : Nat → List Tok → Except String (Ast × List Tok)
  | 0, _ => .error "fuel exhausted"
  | fuel + 1, ts => do
    let (a, r) ← pTerm fuel ts
    pArithRest fuel a r

def pArithRest : Nat → Ast → List Tok → Except String (Ast × List Tok)
  | 0, _, _ => .error "fuel exhausted"
  | fuel + 1, acc, ts =>
    match ts with
    | .plus :: r => do
      let (t, r2) ← pTerm fuel r
      pArithRest fuel (.binOp .add acc t) r2
    | .minus :: r => do
      let (t, r2) ← pTerm fuel r
      pArithRest fuel (.binOp .sub acc t) r2
    | _ => .ok (acc, ts)

/-- Multiplicative level: `factor (('*' | '/' | '//' | '%') factor)*`,
left-associative. -/
def pTerm : Nat → List Tok → Except String (Ast × List Tok)
  | 0, _ => .error "fuel exhausted"
  | fuel + 1, ts => do
    let (a, r) ← pFactor fuel ts
    pTermRest fuel a r

def pTermRest : Nat → Ast → List Tok → Except String (Ast × List Tok)
  | 0, _, _ => .error "fuel exhausted"
  | fuel + 1, acc, ts =>
    match ts with
    | .star :: r => do
      let (t, r2) ← pFactor fuel r
      pTermRest fuel (.binOp .mult acc t) r2
    | .slash :: r => do
      let (t, r2) ← pFactor fuel r
      pTermRest fuel (.binOp .div acc t) r2
    | .dslash :: r => do
      let (t, r2) ← pFactor fuel r
      pTermRest fuel (.binOp .floorDiv acc t) r2
    | .percent :: r => do
      let (t, r2) ← pFactor fuel r
      pTermRest fuel (.binOp .mod acc t) r2
    | _ => .ok (acc, ts)

/-- Unary level (CPython `factor`): `('+' | '-' | '~') factor | power`.
Unary minus binds looser than `**` on its left, so `-2**2` parses as
`-(2**2)`, exactly as in CPython. -/
def pFactor : Nat → List Tok → Except String (Ast × List Tok)
  | 0, _ => .error "fuel exhausted"
  | fuel + 1, ts =>
    match ts with
    | .plus :: r => do
      let (x, r2) ← pFactor fuel r
      .ok (.unaryOp .uadd x, r2)
    | .minus :: r => do
      let (x, r2) ← pFactor fuel r
      .ok (.unaryOp .usub x, r2)
    | .tilde :: r => do
      let (x, r2) ← pFactor fuel r
      .ok (.unaryOp .invert x, r2)
    | _ => pPower fuel ts

/-- Power level (CPython `power`): `primary ['**' factor]`.  The
right-hand side re-enters `factor`, making `**` right-associative:
`2**3**2` parses as `2**(3**2)`. -/
def pPower : Nat → List Tok → Except String (Ast × List Tok)
  | 0, _ => .error "fuel exhausted"
  | fuel + 1, ts => do
    let (b, r) ← pPrimary fuel ts
    match r with
    | .dstar :: r2 => do
      let (e, r3) ← pFactor fuel r2
      .ok (.binOp .pow b e, r3)
    | _ => .ok (b, r)

/-- Primary: an atom followed by call and attribute trailers, which bind
tighter than `**`. -/
def pPrimary : Nat → List Tok → Except String (Ast × List Tok)
  | 0, _ => .error "fuel exhausted"
  | fuel + 1, ts => do
    let (a, r) ← pAtom fuel ts
    pTrailers fuel a r

def pTrailers : Nat → Ast → List Tok → Except String (Ast × List Tok)
  | 0, _, _ => .error "fuel exhausted"
  | fuel + 1, a, ts =>
    match ts with
    | .lparen :: .rparen :: r => pTrailers fuel (.call a []) r
    | .lparen :: r => do
      let (args, r2) ← pArgs fuel r
      match r2 with
      | .rparen :: r3 => pTrailers fuel (.call a args) r3
      | _ => .error "expected closing parenthesis"
    | .dot :: .ident s :: r => pTrailers fuel (.attrAccess a s) r
    | .dot :: _ => .error "expected attribute name"
    | _ => .ok (a, ts)

/-- Positional call arguments: `arith (',' arith)* [',']`. -/
def pArgs : Nat → List Tok → Except String (List Ast × List Tok)
  | 0, _ => .error "fuel exhausted"
  | fuel + 1, ts => do
    let (a, r) ← pArith fuel ts
    match r with
    | .comma :: r2 =>
      match r2 with
      | t :: _ =>
        if startsExpr t then do
          let (rest, r3) ← pArgs fuel r2
          .ok (a :: rest, r3)
        else .ok ([a], r2)
      | [] => .ok ([a], [])
    | _ => .ok ([a], r)

/-- Atoms: literals, `True`/`False`/`None` (which CPython parses into
`ast.Constant`), names, the empty tuple `()`, and a parenthesized
testlist (a grouping when it has no comma, an `ast.Tuple` otherwise). -/
def pAtom : Nat → List Tok → Except String (Ast × List Tok)
  | 0, _ => .error "fuel exhausted"
  | fuel + 1, ts =>
    match ts with
    | .num l :: r => .ok (.constant l, r)
    | .litstr s :: r => .ok (.constant (.lstr s), r)
    | .ident "True" :: r => .ok (.constant (.lbool true), r)
    | .ident "False" :: r => .ok (.constant (.lbool false), r)
    | .ident "None" :: r => .ok (.constant .lnone, r)
    | .ident s :: r => .ok (.name s, r)
    | .lparen :: .rparen :: r => .ok (.tuple [], r)
    | .lparen :: r => do
      let (a, r2) ← pTestlist fuel r
      match r2 with
      | .rparen :: r3 => .ok (a, r3)
      | _ => .error "expected closing parenthesis"
    | _ => .error "unexpected token"
end

/-- Model of `ast.parse(expr, mode="eval")` on a token list: parse a
testlist, require the input to be exhausted, and wrap the body in an
`ast.Expression` node.  The fuel bound is generous: the grammar descends
at most a constant number of levels per consumed token. -/
def parseToks (ts : List Tok) : Except String Ast := do
  let (a, r) ← pTestlist (10 * ts.length + 10) ts
  match r with
  | [] => .ok (.expression a)
  | _ => .error "unexpected tokens after expression"

/-- Composition of the tokenizer and the token parser: the model of
`ast.parse(s, mode="eval")` as a function of the input string. -/
def parseStr (s : String) : Except String Ast :=
  match lex (s.data.length + 1) s.data with
  | .error m => .error m
  | .ok ts => parseToks ts

/-- Model of `safe_eval` (lines 53-60): strip the input, raise
`ValueError("Empty expression")` when nothing remains, parse the rest
(`ast.parse` failures surface as `SyntaxError`, modelled by
`PyExc.parseFail`), then run the `_SafeEval` visitor on the resulting
tree. -/
def safe_eval (s : String) : Except PyExc PyVal :=
  let cs := stripChars s.data
  if cs.isEmpty then .error (.valueError "Empty expression")
  else
    match lex (cs.length + 1) cs with
    | .error m => .error (.parseFail m)
    | .ok ts =>
      match parseToks ts with
      | .error m => .error (.parseFail m)
      | .ok a => visit a

/-- Result normalization performed by the caller `CalculatorApp.calculate`
(lines 150-152): a float with integral value is converted to `int` for
display; every other result is left unchanged.  The abstract
`vfloatPow` value is non-integral by construction and stays a float. -/
def calculateNormalize (v : PyVal) : PyVal :=
  match v with
  | .vfloat f => if f.isIntegral then .vint f.intOf else .vfloat f
  | v => v

/-- Well-formedness of a runtime value: float payloads have a positive
denominator.  Every value the evaluator produces satisfies this. -/
def wfVal : PyVal → Prop
  | .vfloat f => 0 < f.den
  | _ => True

/-- Rational denotation of an exactly modelled numeric value. -/
def toQVal (v : PyVal) : ℚ := (toFltVal v).toRat

/-- Family of expressions nested `n` levels deep: `-(-( … (1) … ))`,
written without parentheses as the string `"-" * n ++ "1"`. -/
def deepNeg : Nat → Ast
  | 0 => .constant (.lint 1)
  | n + 1 => .unaryOp .usub (deepNeg n)

/-- The input string `"-" * n ++ "1"`, whose AST is `deepNeg n`. -/
def deepNegStr (n : Nat) : String :=
  String.mk (List.replicate n '-' ++ ['1'])

instance : DecidableEq (Except PyExc PyVal) := fun a b =>
  match a, b with
  | .ok x, .ok y =>
    if h : x = y then .isTrue (by rw [h]) else .isFalse (by simp [h])
  | .error x, .error y =>
    if h : x = y then .isTrue (by rw [h]) else .isFalse (by simp [h])
  | .ok _, .error _ => .isFalse (by simp)
  | .error _, .ok _ => .isFalse (by simp)

/-- Euclidean division on `ℤ` computes the floor of the exact quotient
when the divisor is positive. -/
theorem floorQ_int (n m : Int) (hm : 0 < m) :
    ⌊(n : ℚ) / (m : ℚ)⌋ = Int.ediv n m := by
  have h1 : ((m.toNat : ℕ) : ℚ) = (m : ℚ) := by
    exact_mod_cast Int.toNat_of_nonneg hm.le
  rw [← h1, Rat.floor_intCast_div_natCast]
  have h2 : ((m.toNat : ℕ) : ℤ) = m := Int.toNat_of_nonneg hm.le
  rw [h2]
  rfl

theorem toRat_ofInt (n : Int) : (Flt.ofInt n).toRat = (n : ℚ) := by
  simp [Flt.ofInt, Flt.toRat]

theorem toRat_addF (x y : Flt) (hx : x.den ≠ 0) (hy : y.den ≠ 0) :
    (addF x y).toRat = x.toRat + y.toRat := by
  have hx2 : (x.den : ℚ) ≠ 0 := by exact_mod_cast hx
  have hy2 : (y.den : ℚ) ≠ 0 := by exact_mod_cast hy
  unfold addF Flt.toRat
  push_cast
  field_simp

theorem toRat_subF (x y : Flt) (hx : x.den ≠ 0) (hy : y.den ≠ 0) :
    (subF x y).toRat = x.toRat - y.toRat := by
  have hx2 : (x.den : ℚ) ≠ 0 := by exact_mod_cast hx
  have hy2 : (y.den : ℚ) ≠ 0 := by exact_mod_cast hy
  unfold subF Flt.toRat
  push_cast
  field_simp
  ring

theorem toRat_mulF (x y : Flt) (hx : x.den ≠ 0) (hy : y.den ≠ 0) :
    (mulF x y).toRat = x.toRat * y.toRat := by
  have hx2 : (x.den : ℚ) ≠ 0 := by exact_mod_cast hx
  have hy2 : (y.den : ℚ) ≠ 0 := by exact_mod_cast hy
  unfold mulF Flt.toRat
  push_cast
  field_simp

theorem toRat_divF (x y : Flt) (hx : x.den ≠ 0) (hy : y.den ≠ 0)
    (hyn : y.num ≠ 0) : (divF x y).toRat = x.toRat / y.toRat := by
  have hx2 : (x.den : ℚ) ≠ 0 := by exact_mod_cast hx
  have hy2 : (y.den : ℚ) ≠ 0 := by exact_mod_cast hy
  have hyn2 : (y.num : ℚ) ≠ 0 := by exact_mod_cast hyn
  unfold divF Flt.toRat
  split
  · push_cast
    field_simp
  · push_cast
    field_simp

theorem floorDivF_eq (x y : Flt) (hx : 0 < x.den) (hy : 0 < y.den)
    (hyn : y.num ≠ 0) : (floorDivF x y : ℤ) = ⌊x.toRat / y.toRat⌋ := by
  have hx2 : (x.den : ℚ) ≠ 0 := Int.cast_ne_zero.mpr hx.ne'
  have hy2 : (y.den : ℚ) ≠ 0 := Int.cast_ne_zero.mpr hy.ne'
  have hyn2 : (y.num : ℚ) ≠ 0 := Int.cast_ne_zero.mpr hyn
  have hq : x.toRat / y.toRat =
      ((x.num * y.den : ℤ) : ℚ) / ((x.den * y.num : ℤ) : ℚ) := by
    unfold Flt.toRat
    push_cast
    field_simp
  have hm : x.den * y.num ≠ 0 := mul_ne_zero hx.ne' hyn
  unfold floorDivF
  rw [hq]
  by_cases hneg : x.den * y.num < 0
  · rw [if_pos hneg]
    have hpos : 0 < -(x.den * y.num) := by omega
    have hfl := floorQ_int (-(x.num * y.den)) (-(x.den * y.num)) hpos
    have hdv : (-(x.num * y.den)) / (-(x.den * y.num)) =
        Int.ediv (-(x.num * y.den)) (-(x.den * y.num)) := rfl
    rw [hdv, ← hfl]
    congr 1
    push_cast
    rw [neg_div_neg_eq]
  · rw [if_neg hneg]
    have hpos : 0 < x.den * y.num := by omega
    have hfl := floorQ_int (x.num * y.den) (x.den * y.num) hpos
    have hdv : (x.num * y.den) / (x.den * y.num) =
        Int.ediv (x.num * y.den) (x.den * y.num) := rfl
    rw [hdv, ← hfl]

theorem toRat_fmodF (x y : Flt) (hx : 0 < x.den) (hy : 0 < y.den)
    (hyn : y.num ≠ 0) :
    (fmodF x y).toRat = x.toRat - y.toRat * ⌊x.toRat / y.toRat⌋ := by
  have h1 : (mulF y (Flt.ofInt (floorDivF x y))).den ≠ 0 := by
    simp only [mulF, Flt.ofInt, mul_one]
    exact hy.ne'
  have h2 : (Flt.ofInt (floorDivF x y)).den ≠ 0 := one_ne_zero
  unfold fmodF
  rw [toRat_subF x _ hx.ne' h1, toRat_mulF y _ hy.ne' h2, toRat_ofInt,
    floorDivF_eq x y hx hy hyn]

theorem bindE_error {α β : Type} (e : PyExc) (f : α → Except PyExc β) :
    (Except.error e >>= f) = Except.error e := rfl

theorem bindE_ok {α β : Type} (a : α) (f : α → Except PyExc β) :
    (Except.ok a >>= f) = f a := rfl

theorem bindE_ne {α β : Type} (x : Except PyExc α) (f : α → Except PyExc β)
    (e : PyExc) (hx : x ≠ .error e) (hf : ∀ a, f a ≠ .error e) :
    (x >>= f) ≠ .error e := by
  cases x with
  | error e2 =>
    rw [bindE_error]
    intro h
    apply hx
    injection h with h2
    rw [h2]
  | ok a => rw [bindE_ok]; exact hf a

theorem addVal_ne (l r : PyVal) (m : String) :
    addVal l r ≠ .error (.valueError m) := by
  cases l <;> cases r <;> simp [addVal]

theorem subVal_ne (l r : PyVal) (m : String) :
    subVal l r ≠ .error (.valueError m) := by
  cases l <;> cases r <;> simp [subVal]

theorem mulVal_ne (l r : PyVal) (m : String) :
    mulVal l r ≠ .error (.valueError m) := by
  cases l <;> cases r <;> simp [mulVal]

theorem divVal_ne (l r : PyVal) (m : String) :
    divVal l r ≠ .error (.valueError m) := by
  cases l <;> cases r <;> simp [divVal] <;> split <;> simp

theorem modVal_ne (l r : PyVal) (m : String) :
    modVal l r ≠ .error (.valueError m) := by
  cases l <;> cases r <;> simp [modVal] <;> (repeat' split) <;> simp

theorem powVal_ne (l r : PyVal) (m : String) :
    powVal l r ≠ .error (.valueError m) := by
  cases l <;> cases r <;> simp [powVal] <;> (repeat' split) <;> simp

/-- The binary dispatch only raises `ValueError` with the message
`"Unsupported operator"`; in particular never with
`"Empty expression"`. -/
theorem applyBin_ne_empty (op : BOp) (l r : PyVal) :
    applyBin op l r ≠ .error (.valueError "Empty expression") := by
  cases op with
  | add => exact addVal_ne l r _
  | sub => exact subVal_ne l r _
  | mult => exact mulVal_ne l r _
  | div => exact divVal_ne l r _
  | mod => exact modVal_ne l r _
  | pow => exact powVal_ne l r _
  | floorDiv => simp [applyBin]

theorem applyUnary_ne_empty (op : UOp) (v : PyVal) :
    applyUnary op v ≠ .error (.valueError "Empty expression") := by
  cases op <;> cases v <;> simp [applyUnary]

theorem visitConstant_ne_empty (v : Lit) :
    visitConstant v ≠ .error (.valueError "Empty expression") := by
  cases v <;> simp [visitConstant]

mutual
/-- The visitor never produces the `"Empty expression"` error: that
message is raised only by `safe_eval` itself, before parsing. -/
theorem visit_ne_empty (a : Ast) :
    visit a ≠ .error (.valueError "Empty expression") := by
  cases a with
  | expression b =>
    simp only [visit]
    exact visit_ne_empty b
  | constant v =>
    simp only [visit]
    exact visitConstant_ne_empty v
  | binOp op l r =>
    simp only [visit]
    exact bindE_ne _ _ _ (visit_ne_empty l) fun lv =>
      bindE_ne _ _ _ (visit_ne_empty r) fun rv => applyBin_ne_empty op lv rv
  | unaryOp op x =>
    simp only [visit]
    exact bindE_ne _ _ _ (visit_ne_empty x) fun xv => applyUnary_ne_empty op xv
  | name s => simp [visit]
  | call f args =>
    simp only [visit]
    exact bindE_ne _ _ _ (visit_ne_empty f) fun _ =>
      bindE_ne _ _ _ (visitList_ne_empty args) fun _ => by simp
  | tuple elts =>
    simp only [visit]
    exact bindE_ne _ _ _ (visitList_ne_empty elts) fun _ => by simp
  | attrAccess o fld =>
    simp only [visit]
    decide

theorem visitList_ne_empty (l : List Ast) :
    visitList l ≠ .error (.valueError "Empty expression") := by
  cases l with
  | nil => simp [visitList]
  | cons a rest =>
    simp only [visitList]
    exact bindE_ne _ _ _ (visit_ne_empty a) fun _ => visitList_ne_empty rest
end

/-- A node list all of whose elements evaluate successfully is traversed
successfully by `generic_visit`. -/
theorem visitList_ok (l : List Ast) (h : ∀ a ∈ l, ∃ v, visit a = .ok v) :
    visitList l = .ok () := by
  induction l with
  | nil => simp [visitList]
  | cons a rest ih =>
    obtain ⟨v, hv⟩ := h a (by simp)
    have hr := ih fun x hx => h x (by simp [hx])
    simp [visitList, hv, hr, bindE_ok]

theorem toFltVal_den_pos (v : PyVal) (hn : isNumericVal v = true)
    (hw : wfVal v) : 0 < (toFltVal v).den := by
  cases v with
  | vint n => simp [toFltVal, Flt.ofInt]
  | vbool b => cases b <;> simp [toFltVal]
  | vfloat f => exact hw
  | vfloatPow => simp [isNumericVal] at hn
  | vcomplexPow => simp [isNumericVal] at hn
  | vnone => simp [isNumericVal] at hn

theorem toFltVal_num_ne_zero (v : PyVal) (hn : isNumericVal v = true)
    (hz : isZeroVal v = false) : (toFltVal v).num ≠ 0 := by
  cases v with
  | vint n =>
    simp [isZeroVal] at hz
    simpa [toFltVal, Flt.ofInt] using hz
  | vbool b =>
    cases b with
    | true => simp [toFltVal]
    | false => simp [isZeroVal] at hz
  | vfloat f =>
    simp [isZeroVal, Flt.isZero] at hz
    simpa [toFltVal] using hz
  | vfloatPow => simp [isNumericVal] at hn
  | vcomplexPow => simp [isNumericVal] at hn
  | vnone => simp [isNumericVal] at hn

/-- On exactly modelled numeric operands, `divVal` reduces to the
zero-test followed by exact fraction division. -/
theorem divVal_numeric (l r : PyVal) (hnl : isNumericVal l = true)
    (hnr : isNumericVal r = true) :
    divVal l r = if isZeroVal r then .error .zeroDivisionError
      else .ok (.vfloat (divF (toFltVal l) (toFltVal r))) := by
  cases l <;> cases r <;>
    first
      | rfl
      | exact absurd hnl (by decide)
      | exact absurd hnr (by decide)

/-- On exactly modelled numeric operands, `modVal` reduces to the
zero-test followed by either integer floor-mod or float modulo. -/
theorem modVal_numeric (l r : PyVal) (hnl : isNumericVal l = true)
    (hnr : isNumericVal r = true) :
    modVal l r = if isZeroVal r then .error .zeroDivisionError
      else if isIntLike l && isIntLike r then
        .ok (.vint (Int.fmod (toIntVal l) (toIntVal r)))
      else .ok (.vfloat (fmodF (toFltVal l) (toFltVal r))) := by
  cases l <;> cases r <;>
    first
      | rfl
      | exact absurd hnl (by decide)
      | exact absurd hnr (by decide)

/-- C1.  The claim says every node kind outside the arithmetic variant
set — in particular function calls, name references and tuples — is
rejected with a `DisallowedConstruct`-style error.  The code puts
`ast.Call`, `ast.Name` and `ast.Tuple` in `ALLOWED_NODES` (line 10), so
`abs(4)` is not rejected: the visitor falls through to `generic_visit`
and `safe_eval` returns `None`.  A kind genuinely outside the tuple,
such as `ast.Attribute` (input `x.y`), is rejected as claimed. -/
theorem C1_call_name_tuple_not_rejected :
    safe_eval "x.y" = .error (.valueError "Disallowed expression: Attribute") ∧
    safe_eval "abs(4)" = .ok .vnone ∧
    safe_eval "(1,2)" = .ok .vnone := by
  refine ⟨rfl, rfl, rfl⟩

/-- C2.  The claim says `visit_Constant` fails for every boolean
constant.  In Python `bool` is a subclass of `int`, so
`isinstance(True, (int, float))` holds and the boolean literal `True`
evaluates to the boolean value `True` — it even participates in
arithmetic (`True+1` gives `2`).  String constants are rejected as the
claim states. -/
theorem C2_bool_constant_accepted :
    safe_eval "True" = .ok (.vbool true) ∧
    safe_eval "True+1" = .ok (.vint 2) ∧
    safe_eval "'a'" = .error (.valueError "Only numeric constants are allowed") := by
  refine ⟨rfl, rfl, rfl⟩

/-- C3.  The claim says a negative base with a fractional exponent fails
with a `DomainError` or another complex-free failure.  The code computes
`left ** right` with Python semantics, which returns a complex number
for `(-8) ** 0.5`; no error is raised and the complex value is the
result of `safe_eval`. -/
theorem C3_fractional_pow_returns_complex :
    safe_eval "(-8)**0.5" = .ok .vcomplexPow := by
  rfl

set_option maxRecDepth 10000 in
/-- C4.  The claim says a configured maximum nesting depth (around 100)
makes deeper expressions fail with `TooDeeplyNested`.  The code has no
depth tracking and no such error value: `-(-(…(1)…))` nested to any
depth `n` evaluates to `(-1)^n`, and in particular the 101-deep input
`"-" * 101 ++ "1"` — beyond the suggested bound — evaluates to `-1`. -/
theorem C4_no_nesting_limit :
    (∀ n : Nat, visit (deepNeg n) = .ok (.vint ((-1 : Int) ^ n))) ∧
    safe_eval (deepNegStr 101) = .ok (.vint (-1)) := by
  constructor
  · intro n
    induction n with
    | zero => rfl
    | succ k ih =>
      simp only [deepNeg, visit, ih, bindE_ok, applyUnary, pow_succ]
      rw [mul_neg_one]
  · decide

/-- C5.  Standard precedence and associativity: `2+3*4` parses with `*`
under `+` and evaluates to `14`, and `**` is right-associative, so
`2**3**2` parses as `2**(3**2)` and evaluates to `512`. -/
theorem C5_precedence_and_associativity :
    safe_eval "2+3*4" = .ok (.vint 14) ∧
    safe_eval "2**3**2" = .ok (.vint 512) ∧
    parseStr "2+3*4" = .ok (.expression (.binOp .add (.constant (.lint 2))
      (.binOp .mult (.constant (.lint 3)) (.constant (.lint 4))))) ∧
    parseStr "2**3**2" = .ok (.expression (.binOp .pow (.constant (.lint 2))
      (.binOp .pow (.constant (.lint 3)) (.constant (.lint 2))))) := by
  refine ⟨rfl, rfl, rfl, rfl⟩

/-- C6 counterexample.  The claim quantifies over every pair of evaluated
operands and says division fails with `DivisionByZero` exactly when the
right operand equals 0.  A `Call` node evaluates to `None`
(see C10), and `None / 0` raises `TypeError`, not `ZeroDivisionError`:
on input `abs(4)/0` the right operand equals 0 yet the failure is a
`TypeError`. -/
theorem C6_counterexample_none_operand :
    safe_eval "abs(4)/0" = .error .typeError ∧
    divVal .vnone (.vint 0) = .error .typeError := by
  refine ⟨rfl, rfl⟩

/-- C6 (amended to numeric operands).  For every pair of exactly
modelled numeric operands (int, bool or float), division and modulo fail
with `ZeroDivisionError` exactly when the right operand equals zero;
otherwise division returns the float `left / right` and modulo returns
the Python floor-signed remainder (an int on int-like operands, a float
otherwise).  The concrete inputs `5/0` and `5%0` fail as claimed. -/
theorem C6_division_by_zero_numeric :
    (∀ l r : PyVal, isNumericVal l = true → isNumericVal r = true →
      wfVal l → wfVal r →
      ((isZeroVal r = true →
          applyBin .div l r = .error .zeroDivisionError ∧
          applyBin .mod l r = .error .zeroDivisionError) ∧
       (isZeroVal r = false →
          (∃ f : Flt, applyBin .div l r = .ok (.vfloat f) ∧
            f.toRat = toQVal l / toQVal r) ∧
          (isIntLike l = true → isIntLike r = true →
            applyBin .mod l r = .ok (.vint (Int.fmod (toIntVal l) (toIntVal r)))) ∧
          ((isIntLike l && isIntLike r) = false →
            ∃ f : Flt, applyBin .mod l r = .ok (.vfloat f) ∧
              f.toRat = toQVal l - toQVal r * ⌊toQVal l / toQVal r⌋)))) ∧
    safe_eval "5/0" = .error .zeroDivisionError ∧
    safe_eval "5%0" = .error .zeroDivisionError := by
  refine ⟨?_, rfl, rfl⟩
  intro l r hnl hnr hwl hwr
  have hdl : 0 < (toFltVal l).den := toFltVal_den_pos l hnl hwl
  have hdr : 0 < (toFltVal r).den := toFltVal_den_pos r hnr hwr
  constructor
  · intro hz
    constructor
    · show divVal l r = _
      rw [divVal_numeric l r hnl hnr, if_pos hz]
    · show modVal l r = _
      rw [modVal_numeric l r hnl hnr, if_pos hz]
  · intro hz
    have hrn : (toFltVal r).num ≠ 0 := toFltVal_num_ne_zero r hnr hz
    refine ⟨⟨divF (toFltVal l) (toFltVal r), ?_, ?_⟩, ?_, ?_⟩
    · show divVal l r = _
      rw [divVal_numeric l r hnl hnr, if_neg (by simp [hz])]
    · exact toRat_divF _ _ hdl.ne' hdr.ne' hrn
    · intro hil hir
      show modVal l r = _
      rw [modVal_numeric l r hnl hnr, if_neg (by simp [hz]),
        if_pos (by simp [hil, hir])]
    · intro hni
      refine ⟨fmodF (toFltVal l) (toFltVal r), ?_, ?_⟩
      · show modVal l r = _
        rw [modVal_numeric l r hnl hnr, if_neg (by simp [hz]), if_neg (by simp [hni])]
      · exact toRat_fmodF _ _ hdl hdr hrn

/-- C6 witness: the amended statement applied at the concrete operands
`5` and `0` (zero divisor), and at `7` and `3` (nonzero divisor). -/
theorem C6_witness :
    (applyBin .div (.vint 5) (.vint 0) = .error .zeroDivisionError ∧
     applyBin .mod (.vint 5) (.vint 0) = .error .zeroDivisionError) ∧
    applyBin .mod (.vint 7) (.vint 3) = .ok (.vint 1) := by
  constructor
  · exact (C6_division_by_zero_numeric.1 (.vint 5) (.vint 0) rfl rfl
      trivial trivial).1 rfl
  · have h := ((C6_division_by_zero_numeric.1 (.vint 7) (.vint 3) rfl rfl
      trivial trivial).2 rfl).2.1 rfl rfl
    rw [h]
    rfl

/-- C7.  `safe_eval` fails with `ValueError("Empty expression")` exactly
when the input is empty after stripping leading and trailing whitespace:
the strip-and-test happens before parsing, parse failures surface as
`SyntaxError`, and the visitor never produces that message
(`visit_ne_empty`).  In particular `""` and `"   "` fail this way. -/
theorem C7_empty_expression_exact :
    (∀ s : String, safe_eval s = .error (.valueError "Empty expression") ↔
      stripChars s.data = []) ∧
    safe_eval "" = .error (.valueError "Empty expression") ∧
    safe_eval "   " = .error (.valueError "Empty expression") := by
  refine ⟨?_, rfl, rfl⟩
  intro s
  constructor
  · intro h
    by_cases hc : stripChars s.data = []
    · exact hc
    · exfalso
      have hni : ¬((stripChars s.data).isEmpty = true) := by
        simpa [List.isEmpty_iff] using hc
      simp only [safe_eval] at h
      rw [if_neg hni] at h
      cases hlex : lex ((stripChars s.data).length + 1) (stripChars s.data) with
      | error m =>
        rw [hlex] at h
        exact absurd h (by simp)
      | ok ts =>
        rw [hlex] at h
        dsimp only at h
        cases hp : parseToks ts with
        | error m =>
          rw [hp] at h
          dsimp only at h
          exact absurd h (by simp)
        | ok a =>
          rw [hp] at h
          dsimp only at h
          exact visit_ne_empty a h
  · intro hc
    simp [safe_eval, hc]

/-- C8.  Evaluating `UnaryOp(UAdd, x)` applies Python unary `+` to the
value of `x` and `UnaryOp(USub, x)` applies unary `-`: on an int value
`n` they give `n` and `-n`, on a float value they give the identity and
the negation.  Consequently `-3+4` evaluates to `1` and `-(3+4)` to
`-7`. -/
theorem C8_unary_plus_minus :
    (∀ (x : Ast) (n : Int), visit x = .ok (.vint n) →
      visit (.unaryOp .uadd x) = .ok (.vint n) ∧
      visit (.unaryOp .usub x) = .ok (.vint (-n))) ∧
    (∀ (x : Ast) (f : Flt), visit x = .ok (.vfloat f) →
      visit (.unaryOp .uadd x) = .ok (.vfloat f) ∧
      visit (.unaryOp .usub x) = .ok (.vfloat (negF f))) ∧
    safe_eval "-3+4" = .ok (.vint 1) ∧
    safe_eval "-(3+4)" = .ok (.vint (-7)) := by
  refine ⟨?_, ?_, rfl, rfl⟩
  · intro x n h
    constructor <;> simp [visit, h, bindE_ok, applyUnary]
  · intro x f h
    constructor <;> simp [visit, h, bindE_ok, applyUnary]

/-- C8 witness: the unary rules applied to the literal `3`. -/
theorem C8_witness :
    visit (.unaryOp .usub (.constant (.lint 3))) = .ok (.vint (-3)) :=
  (C8_unary_plus_minus.1 (.constant (.lint 3)) 3 rfl).2

/-- C9.  The evaluator never converts an integral float to an int:
`int / int` division always returns a float whose value is the exact
quotient, so `4/2` returns the float `2.0` (the fraction `4/2` tagged
`vfloat`, not `vint 2`); the int conversion is performed only by the
caller model `calculateNormalize` (from `CalculatorApp.calculate`). -/
theorem C9_division_keeps_float :
    (∀ a b : Int, b ≠ 0 →
      ∃ f : Flt, applyBin .div (.vint a) (.vint b) = .ok (.vfloat f) ∧
        f.toRat = (a : ℚ) / b) ∧
    safe_eval "4/2" = .ok (.vfloat ⟨4, 2⟩) ∧
    (⟨4, 2⟩ : Flt).toRat = 2 ∧
    calculateNormalize (.vfloat ⟨4, 2⟩) = .vint 2 := by
  refine ⟨?_, rfl, by norm_num [Flt.toRat], rfl⟩
  intro a b hb
  refine ⟨divF (Flt.ofInt a) (Flt.ofInt b), ?_, ?_⟩
  · show divVal (.vint a) (.vint b) = _
    rw [divVal_numeric (.vint a) (.vint b) rfl rfl,
      if_neg (by simp [isZeroVal, hb])]
    rfl
  · rw [toRat_divF _ _ (by norm_num [Flt.ofInt]) (by norm_num [Flt.ofInt])
      (by simpa [Flt.ofInt] using hb), toRat_ofInt, toRat_ofInt]

/-- C9 witness: the division rule applied at `4 / 2`. -/
theorem C9_witness :
    ∃ f : Flt, applyBin .div (.vint 4) (.vint 2) = .ok (.vfloat f) ∧
      f.toRat = (4 : ℚ) / 2 :=
  C9_division_keeps_float.1 4 2 (by norm_num)

/-- C10 counterexample.  The claim says that for every input whose AST
has a `Call`, `Name` or `Tuple` at the top, `safe_eval` returns `None`
and never raises the disallowed-expression error.  But `generic_visit`
still visits the children, so an offending descendant makes the call
fail instead of returning `None`: on `abs('a')` the string constant
child raises `ValueError("Only numeric constants are allowed")`, and on
`abs(x.y)` the `Attribute` child raises exactly the
disallowed-expression error. -/
theorem C10_counterexample_failing_child :
    safe_eval "abs('a')" =
      .error (.valueError "Only numeric constants are allowed") ∧
    safe_eval "abs(x.y)" =
      .error (.valueError "Disallowed expression: Attribute") := by
  refine ⟨rfl, rfl⟩

/-- C10 (amended).  For `Call`, `Name` and `Tuple` nodes the allow-list
check passes and dispatch falls through to `generic_visit`, which
returns `None` — neither a number nor a disallowed-expression error —
provided every child itself evaluates without error; errors of offending
descendants propagate instead.  In particular `abs(4)` returns `None`. -/
theorem C10_generic_visit_returns_none :
    (∀ s : String, visit (.name s) = .ok .vnone) ∧
    (∀ (f : Ast) (args : List Ast), (∃ v, visit f = .ok v) →
      (∀ a ∈ args, ∃ v, visit a = .ok v) →
      visit (.call f args) = .ok .vnone) ∧
    (∀ elts : List Ast, (∀ a ∈ elts, ∃ v, visit a = .ok v) →
      visit (.tuple elts) = .ok .vnone) ∧
    safe_eval "abs(4)" = .ok .vnone := by
  refine ⟨fun s => rfl, ?_, ?_, rfl⟩
  · rintro f args ⟨v, hv⟩ hargs
    simp [visit, hv, bindE_ok, visitList_ok args hargs]
  · intro elts h
    simp [visit, visitList_ok elts h, bindE_ok]

/-- C10 witness: the fall-through rule applied to the AST of `abs(4)`. -/
theorem C10_witness :
    visit (.call (.name "abs") [.constant (.lint 4)]) = .ok .vnone := by
  refine C10_generic_visit_returns_none.2.1 (.name "abs")
    [.constant (.lint 4)] ⟨.vnone, rfl⟩ ?_
  intro a ha
  simp only [List.mem_singleton] at ha
  subst ha
  exact ⟨.vint 4, rfl⟩

end Calculater
